import Mathlib

/-!
# Verification of the p-throttle-ts throttling engine

Shallow embedding of `src/index.ts` (the `pThrottle` factory): the two delay
calculators (`windowedDelay`, `strictDelay`), the pending-call queue, the
`abort` / `isEnabled` / `queueSize` surface, and the construction-time
validation.  Timestamps and the interval are modelled as integers (the source
reads `Date.now()`, an integer number of milliseconds); `limit` is a natural
number where it is used as a count; the construction-time validation, which
must distinguish finite from non-finite JavaScript numbers, uses a dedicated
`JSNum` type with rational finite values.
-/

/- ## Configuration and validation (source lines 49–65) -/

/-- A JavaScript number as far as the construction-time validation observes
it: a finite (rational) value, `NaN`, or one of the two infinities. -/
inductive JSNum where
  | num (q : Rat)
  | nan
  | posInf
  | negInf
deriving DecidableEq

/-- `Number.isFinite`. -/
def JSNum.isFinite : JSNum → Bool
  | .num _ => true
  | _ => false

/-- Positivity of a JavaScript number (`x > 0`). -/
def JSNum.isPositive : JSNum → Bool
  | .num q => decide (0 < q)
  | .posInf => true
  | _ => false

/-- Throttle options as used by the delay calculators: integer `limit` and
`interval` (the claims under verification concern integer-valued
configurations), plus the `strict` flag. -/
structure ThrottleOpts where
  limit : Nat
  interval : Int
  strict : Bool
deriving DecidableEq

/- ## Algorithm state (source lines 67–70, 91) -/

/-- The windowed algorithm's mutable variables `currentTick` and
`activeCount` (source lines 69–70). -/
structure WindowedState where
  currentTick : Int
  activeCount : Nat
deriving DecidableEq

/-- Full engine state closed over by one `pThrottle(options)` invocation:
the `isEnabled` flag, the pending-call map `queue` (modelled as the list of
timer handles in insertion order; handles are modelled as consecutively
issued naturals, `nextTimerId` being the next fresh one), the windowed
variables and the `strictTicks` array. -/
structure EngineState where
  isEnabled : Bool
  queue : List Nat
  win : WindowedState
  strictTicks : List Int
  nextTimerId : Nat
deriving DecidableEq

/-- Initial engine state: `queue` empty, `currentTick = 0`,
`activeCount = 0`, `strictTicks = []`, `isEnabled = true`. -/
def mkEngine : EngineState :=
  { isEnabled := true
    queue := []
    win := { currentTick := 0, activeCount := 0 }
    strictTicks := []
    nextTimerId := 0 }

/- ## Delay calculators (source lines 72–110) -/

/-- `windowedDelay` (source lines 72–89), with `now = Date.now()` passed in
explicitly.  Returns the delay together with the updated state.  Note the
second branch falls through to `return currentTick - now` after the
increment, exactly as in the source. -/
def windowedDelay (limit : Nat) (interval : Int) (now : Int)
    (s : WindowedState) : Int × WindowedState :=
  if now - s.currentTick > interval then
    (0, { currentTick := now, activeCount := 1 })
  else if s.activeCount < limit then
    (s.currentTick - now, { currentTick := s.currentTick, activeCount := s.activeCount + 1 })
  else
    (s.currentTick + interval - now,
     { currentTick := s.currentTick + interval, activeCount := 1 })

/-- `strictDelay` (source lines 93–110), with `now` passed in explicitly;
the state is the `strictTicks` array.  When the array is full the source
executes `strictTicks.shift()!`; with `limit > 0` a full array is nonempty,
so the empty-list case below is unreachable from any real execution (in the
source, `shift()` on an empty array would produce `undefined` and NaN
arithmetic, which only arises for `limit = 0`). -/
def strictDelay (limit : Nat) (interval : Int) (now : Int)
    (ticks : List Int) : Int × List Int :=
  if ticks.length < limit then
    (0, ticks ++ [now])
  else
    match ticks with
    | [] => (0, [now])
    | t0 :: rest =>
      let earliestTime := t0 + interval
      if earliestTime ≤ now then
        (0, rest ++ [now])
      else
        (earliestTime - now, rest ++ [earliestTime])

/-- `getDelay = strict ? strictDelay : windowedDelay` (source line 112),
acting on the full engine state. -/
def getDelay (o : ThrottleOpts) (now : Int) (s : EngineState) :
    Int × EngineState :=
  if o.strict then
    let p := strictDelay o.limit o.interval now s.strictTicks
    (p.1, { s with strictTicks := p.2 })
  else
    let p := windowedDelay o.limit o.interval now s.win
    (p.1, { s with win := p.2 })

/- ## Construction (source lines 59–65) -/

/-- The construction-time validation and engine creation: `pThrottle` throws
a `TypeError` when `limit` or `interval` is not finite (source lines 59–65),
and otherwise allocates the fresh closed-over state.  No other checks are
performed in the source. -/
def pThrottleCreate (limit interval : JSNum) : Except String EngineState :=
  if !limit.isFinite then
    .error "Expected limit to be a finite number"
  else if !interval.isFinite then
    .error "Expected interval to be a finite number"
  else
    .ok mkEngine

/-- Whether an `Except` result is a success. -/
def exceptOk {ε α : Type} : Except ε α → Bool
  | .ok _ => true
  | .error _ => false

/- ## Wrapper orchestration (source lines 114–159) -/

/-- Errors that can settle a call's promise: the `AbortError` raised by
`abort()`, or an arbitrary error originating in the wrapped callable. -/
inductive JsError where
  | abortErr
  | other (code : Nat)
deriving DecidableEq

/-- Outcome of synchronously invoking the wrapped callable: it returns a
value or throws. -/
inductive JsOutcome (α : Type) where
  | ret (v : α)
  | thrown (e : JsError)
deriving DecidableEq

/-- A settled promise. -/
inductive PromiseState (α : Type) where
  | fulfilled (v : α)
  | rejected (e : JsError)
deriving DecidableEq

/-- The `(async () => function_.apply(this, args))()` expression of the
disabled path (source line 126): a synchronous throw becomes a rejected
promise, a returned value a fulfilled one. -/
def asyncRun {α : Type} (f : JsOutcome α) : PromiseState α :=
  match f with
  | .ret v => .fulfilled v
  | .thrown e => .rejected e

/-- What one invocation of the throttled wrapper produced: on the disabled
path, an immediately settled promise carrying the callable's outcome; on the
enabled path, a scheduled timer (its handle and the delay passed to
`setTimeout`) with a pending promise. -/
inductive CallAction (α : Type) where
  | immediate (res : PromiseState α)
  | scheduled (timerId : Nat) (delay : Int)
deriving DecidableEq

/-- One invocation of the throttled wrapper (source lines 121–141).  If
`isEnabled` is false the callable runs at once inside an async wrapper and
no state is touched.  Otherwise the delay is computed (mutating the
algorithm state), a timer is scheduled and the fresh handle is registered in
the queue, exactly in the source's order
(`timeout = setTimeout(execute, getDelay()); queue.set(timeout, reject)`). -/
def callStep {α : Type} (o : ThrottleOpts) (f : JsOutcome α) (now : Int)
    (s : EngineState) : EngineState × CallAction α :=
  if s.isEnabled = false then
    (s, .immediate (asyncRun f))
  else
    let p := getDelay o now s
    (⟨p.2.isEnabled, p.2.queue ++ [s.nextTimerId], p.2.win, p.2.strictTicks,
      s.nextTimerId + 1⟩,
     .scheduled s.nextTimerId p.1)

/-- Result of a timer firing: the promise settles, or the callable throws
synchronously inside the timer callback and the exception escapes uncaught
(the promise stays pending). -/
inductive FireResult (α : Type) where
  | settled (r : PromiseState α)
  | uncaught (e : JsError)
deriving DecidableEq

/-- The `execute` timer callback (source lines 131–135):
`resolve(function_.apply(this, args)); queue.delete(timeout)`.  When the
callable returns a value the promise is fulfilled with it and the handle is
deleted from the queue; when the callable throws synchronously, `resolve`
is never reached, so the deletion is skipped and the exception escapes. -/
def fireStep {α : Type} (f : JsOutcome α) (id : Nat) (s : EngineState) :
    EngineState × FireResult α :=
  match f with
  | .ret v => ({ s with queue := s.queue.filter (fun i => i ≠ id) },
               .settled (.fulfilled v))
  | .thrown e => (s, .uncaught e)

/-- Observable effect of `abort()` on one pending call: its timer is
cancelled and its promise rejected with the given error. -/
structure AbortEffect where
  timerCancelled : Nat
  rejectedWith : JsError
deriving DecidableEq

/-- `throttled.abort` (source lines 143–151): for every pending handle,
`clearTimeout` then reject with `AbortError`; then `queue.clear()` and
`strictTicks.splice(0, strictTicks.length)`. -/
def abortStep (s : EngineState) : EngineState × List AbortEffect :=
  ({ s with queue := [], strictTicks := [] },
   s.queue.map (fun id => ⟨id, .abortErr⟩))

/-- `throttled.queueSize` (source lines 155–159): the size of the pending
map. -/
def queueSizeOf (s : EngineState) : Nat := s.queue.length

/- ## Multiple wrappers over one pThrottle invocation (source lines 114–162) -/

/-- The closure state shared by every wrapper function created from one
`pThrottle(options)` invocation: the pending map `queue`, the windowed
variables and `strictTicks` (source lines 67–70, 91), plus the fresh-handle
counter.  The `isEnabled` flag is deliberately *not* part of it: the source
sets `isEnabled` on each returned wrapper function individually (line 153),
so the flag is per wrapper, while everything here is per invocation. -/
structure SharedState where
  queue : List Nat
  win : WindowedState
  strictTicks : List Int
  nextTimerId : Nat
deriving DecidableEq

/-- View the shared closure state as the engine state seen by the body of a
wrapper whose own `isEnabled` flag is `flag`. -/
def toEngine (sh : SharedState) (flag : Bool) : EngineState :=
  ⟨flag, sh.queue, sh.win, sh.strictTicks, sh.nextTimerId⟩

/-- The shared components of an engine state (the flag belongs to the
calling wrapper, not to the closure). -/
def ofEngine (s : EngineState) : SharedState :=
  ⟨s.queue, s.win, s.strictTicks, s.nextTimerId⟩

/-- The value returned by one `pThrottle(options)` invocation: the options,
the closed-over mutable state shared by all wrappers it creates, and the
per-wrapper `isEnabled` flags — wrapper `w` (its creation index) owns
`enabledFlags[w]`; the list's length is the number of wrappers created so
far. -/
structure ThrottleHandle where
  opts : ThrottleOpts
  shared : SharedState
  enabledFlags : List Bool
deriving DecidableEq

/-- One `pThrottle(options)` invocation: fresh state, no wrappers yet. -/
def pThrottleHandle (o : ThrottleOpts) : ThrottleHandle :=
  { opts := o, shared := ⟨[], ⟨0, 0⟩, [], 0⟩, enabledFlags := [] }

/-- Applying the returned limit function to a callable: a new wrapper is
created (identified by its creation index) with its own `isEnabled = true`
(source line 153); it shares the handle's closure state. -/
def mkWrapper (h : ThrottleHandle) : ThrottleHandle × Nat :=
  ({ h with enabledFlags := h.enabledFlags ++ [true] }, h.enabledFlags.length)

/-- Wrapper `w`'s own `isEnabled` flag (valid wrapper indices are below
`enabledFlags.length`; the default matches the initial `true`). -/
def wrapperEnabled (h : ThrottleHandle) (w : Nat) : Bool :=
  h.enabledFlags.getD w true

/-- Assigning `throttled.isEnabled = b` on wrapper `w`: only that wrapper's
flag changes. -/
def setEnabledVia (w : Nat) (b : Bool) (h : ThrottleHandle) : ThrottleHandle :=
  { h with enabledFlags := h.enabledFlags.set w b }

/-- Invoking wrapper `w` of a handle: the wrapper body (`callStep`) runs
with that wrapper's own `isEnabled` flag over the shared closure state, and
the shared components of the result are stored back (`callStep` never
writes the flag). -/
def callVia {α : Type} (w : Nat) (f : JsOutcome α) (now : Int)
    (h : ThrottleHandle) : ThrottleHandle × CallAction α :=
  let p := callStep h.opts f now (toEngine h.shared (wrapperEnabled h w))
  ({ h with shared := ofEngine p.1 }, p.2)

/-- `queueSize` observed through wrapper `w` of a handle: every wrapper's
getter reads the size of the one shared pending map (source lines
155–159). -/
def queueSizeVia (_w : Nat) (h : ThrottleHandle) : Nat :=
  h.shared.queue.length

/-- `abort()` invoked through wrapper `w` of a handle: every wrapper's
abort closure mutates only the shared `queue` and `strictTicks` (source
lines 143–151) and does not consult the flag. -/
def abortVia (_w : Nat) (h : ThrottleHandle) : ThrottleHandle × List AbortEffect :=
  let p := abortStep (toEngine h.shared true)
  ({ h with shared := ofEngine p.1 }, p.2)

/-- An operation on one handle (used to state isolation between distinct
`pThrottle` invocations). -/
inductive HandleOp (α : Type) where
  | callOp (w : Nat) (f : JsOutcome α) (now : Int)
  | abortOp (w : Nat)
  | setEnabledOp (w : Nat) (b : Bool)
  | newWrapper

/-- Apply a handle operation. -/
def applyOp {α : Type} : HandleOp α → ThrottleHandle → ThrottleHandle
  | .callOp w f now, h => (callVia w f now h).1
  | .abortOp w, h => (abortVia w h).1
  | .setEnabledOp w b, h => setEnabledVia w b h
  | .newWrapper, h => (mkWrapper h).1

/-- A world of two independently constructed handles; an operation is
applied to the first or to the second. -/
def applyOpSide {α : Type} (side : Bool) (op : HandleOp α)
    (p : ThrottleHandle × ThrottleHandle) : ThrottleHandle × ThrottleHandle :=
  if side then (applyOp op p.1, p.2) else (p.1, applyOp op p.2)

/- ## Event traces over one engine (for the queue-size invariant) -/

/-- An event on one engine: a wrapper invocation at time `now`, a timer
firing (carrying the callable's outcome at that moment), an `abort()`, or an
assignment to `isEnabled`. -/
inductive EngineEvent (α : Type) where
  | call (now : Int)
  | fire (id : Nat) (f : JsOutcome α)
  | abortAll
  | setEnabled (b : Bool)
deriving DecidableEq

/-- State transition of one event. -/
def stepEv {α : Type} (o : ThrottleOpts) (s : EngineState) :
    EngineEvent α → EngineState
  | .call now => (callStep o (JsOutcome.ret () : JsOutcome Unit) now s).1
  | .fire id f => (fireStep f id s).1
  | .abortAll => (abortStep s).1
  | .setEnabled b => { s with isEnabled := b }

/-- Claim-side bookkeeping, modelled from the spec: the list of calls
"issued but not yet resolved or aborted" — an enabled call adds the fresh
handle, a firing removes the fired call, `abort()` removes all, everything
else leaves it unchanged.  This is the reference against which the engine's
`queue` is compared. -/
def claimPendingUpd {α : Type} (s : EngineState) (g : List Nat) :
    EngineEvent α → List Nat
  | .call _ => if s.isEnabled then g ++ [s.nextTimerId] else g
  | .fire id _ => g.filter (fun i => i ≠ id)
  | .abortAll => []
  | .setEnabled _ => g

/-- Run a trace of events, carrying the engine state together with the
claim-side pending list. -/
def runGhost {α : Type} (o : ThrottleOpts) :
    EngineState × List Nat → List (EngineEvent α) → EngineState × List Nat
  | p, [] => p
  | p, ev :: rest =>
      runGhost o (stepEv o p.1 ev, claimPendingUpd p.1 p.2 ev) rest

/-- `true` when an event is a timer firing whose callable throws
synchronously. -/
def fireThrows {α : Type} : EngineEvent α → Bool
  | .fire _ (.thrown _) => true
  | _ => false

/-- `true` when no fire event in the trace carries a synchronously-throwing
callable. -/
def firesOk {α : Type} (tr : List (EngineEvent α)) : Bool :=
  tr.all (fun ev => !fireThrows ev)

/- ## Theorems -/

/-- C2, counterexample: in the windowed calculator's middle branch
(window not elapsed, `activeCount < limit`) the returned delay is
`currentTick - now`, not 0.  At `limit = 2`, `interval = 10`,
state `⟨currentTick = 100, activeCount = 1⟩`, `now = 105`: the first branch
condition `now - currentTick > interval` is false, the second condition
`activeCount < limit` is true, yet the returned delay is `-5 ≠ 0`. -/
theorem C2_windowed_admit_delay_cx :
    ¬ ((105 : Int) - 100 > 10) ∧ (1 < 2) ∧
    windowedDelay 2 10 105 ⟨100, 1⟩ = (-5, ⟨100, 2⟩) ∧ (-5 : Int) ≠ 0 := by
  decide

/-- C2, amended: the windowed calculator follows exactly the three source
branches — new window (`windowStart = now`, `activeCount = 1`, delay 0);
admit (`activeCount` incremented, delay `currentTick - now`, which may be
negative or positive, not 0); window full (`currentTick += interval`,
`activeCount = 1`, delay `currentTick - now` for the new `currentTick`). -/
theorem C2_windowed_branches (limit : Nat) (interval now : Int)
    (s : WindowedState) :
    (now - s.currentTick > interval →
      windowedDelay limit interval now s = (0, ⟨now, 1⟩)) ∧
    (¬ (now - s.currentTick > interval) → s.activeCount < limit →
      windowedDelay limit interval now s =
        (s.currentTick - now, ⟨s.currentTick, s.activeCount + 1⟩)) ∧
    (¬ (now - s.currentTick > interval) → ¬ (s.activeCount < limit) →
      windowedDelay limit interval now s =
        (s.currentTick + interval - now, ⟨s.currentTick + interval, 1⟩)) := by
  unfold windowedDelay
  refine ⟨fun h1 => ?_, fun h1 h2 => ?_, fun h1 h2 => ?_⟩
  · rw [if_pos h1]
  · rw [if_neg h1, if_pos h2]
  · rw [if_neg h1, if_neg h2]

/-- Witness for C2 (amended), exercising the middle branch at a concrete
input. -/
theorem C2_windowed_branches_witness :
    windowedDelay 2 10 105 ⟨100, 1⟩ = (100 - 105, ⟨100, 1 + 1⟩) :=
  (C2_windowed_branches 2 10 105 ⟨100, 1⟩).2.1 (by decide) (by decide)

/-- C3, counterexample: the source validates only finiteness
(`Number.isFinite`), never positivity; `limit = 0` is finite and not
positive, yet construction succeeds, contradicting the claim that
construction raises exactly when `limit` or `interval` is not a finite
positive number. -/
theorem C3_nonpositive_accepted_cx :
    pThrottleCreate (JSNum.num 0) (JSNum.num 100) = .ok mkEngine ∧
    (JSNum.num 0).isPositive = false :=
  ⟨rfl, rfl⟩

/-- C3, amended: construction fails synchronously if and only if `limit` or
`interval` is not finite (positivity is not checked); on success the fresh
engine state is produced, on failure no engine is produced. -/
theorem C3_construction_validation (limit interval : JSNum) :
    (exceptOk (pThrottleCreate limit interval) =
      (limit.isFinite && interval.isFinite)) ∧
    (limit.isFinite = true → interval.isFinite = true →
      pThrottleCreate limit interval = .ok mkEngine) := by
  unfold pThrottleCreate exceptOk
  constructor
  · cases h1 : limit.isFinite <;> cases h2 : interval.isFinite <;> simp
  · intro h1 h2
    simp [h1, h2]

/-- Witness for C3 (amended) at finite options `limit = 1`,
`interval = 100`. -/
theorem C3_construction_validation_witness :
    pThrottleCreate (JSNum.num 1) (JSNum.num 100) = .ok mkEngine :=
  (C3_construction_validation (JSNum.num 1) (JSNum.num 100)).2 rfl rfl

/-- C4, counterexample: the windowed delay can be negative at a reachable
state.  From the initial windowed state `⟨0, 0⟩`, a call at `now = 100`
(limit 2, interval 10) reaches `⟨100, 1⟩` with delay 0; a second call at
`now = 105` then takes the admit branch and returns delay `-5 < 0`. -/
theorem C4_negative_delay_cx :
    windowedDelay 2 10 100 ⟨0, 0⟩ = (0, ⟨100, 1⟩) ∧
    (windowedDelay 2 10 105 ⟨100, 1⟩).1 < 0 := by
  decide

/-- The strict delay is never negative (for `limit > 0`). -/
theorem strictDelay_nonneg (limit : Nat) (interval now : Int)
    (ticks : List Int) (hL : 0 < limit) :
    0 ≤ (strictDelay limit interval now ticks).1 := by
  unfold strictDelay
  by_cases h : ticks.length < limit
  · rw [if_pos h]
  · rw [if_neg h]
    cases ticks with
    | nil => exact absurd hL (by simpa using h)
    | cons t0 rest =>
      dsimp only
      by_cases h2 : t0 + interval ≤ now
      · rw [if_pos h2]
      · rw [if_neg h2]
        omega

/-- The windowed delay is bounded below by `-interval` (for a non-negative
interval); it can be negative, cf. `C4_negative_delay_cx`. -/
theorem windowedDelay_lower (limit : Nat) (interval now : Int)
    (s : WindowedState) (hI : 0 ≤ interval) :
    -interval ≤ (windowedDelay limit interval now s).1 := by
  unfold windowedDelay
  by_cases h1 : now - s.currentTick > interval
  · rw [if_pos h1]
    simp
    omega
  · rw [if_neg h1]
    by_cases h2 : s.activeCount < limit
    · rw [if_pos h2]
      simp
      omega
    · rw [if_neg h2]
      simp
      omega

/-- C4, amended: the strict delay is always ≥ 0 (for `limit > 0`), while the
windowed delay is only bounded below by `-interval` (for `interval ≥ 0`) —
the admit branch returns `currentTick - now`, which can be negative (the
host timer then clamps it to 0). -/
theorem C4_delay_bounds (limit : Nat) (interval now : Int)
    (s : WindowedState) (ticks : List Int) (hL : 0 < limit)
    (hI : 0 ≤ interval) :
    0 ≤ (strictDelay limit interval now ticks).1 ∧
    -interval ≤ (windowedDelay limit interval now s).1 :=
  ⟨strictDelay_nonneg limit interval now ticks hL,
   windowedDelay_lower limit interval now s hI⟩

/-- Witness for C4 (amended) at a concrete configuration and state. -/
theorem C4_delay_bounds_witness :
    0 ≤ (strictDelay 2 10 105 []).1 ∧
    -(10 : Int) ≤ (windowedDelay 2 10 105 ⟨100, 1⟩).1 :=
  C4_delay_bounds 2 10 105 ⟨100, 1⟩ [] (by decide) (by decide)

/-- C5: `abort()` cancels every pending call's timer and rejects it with the
`AbortError`, in queue order; `queueSize` is 0 immediately afterwards; with
an empty queue no promise is rejected and no timer cancelled (a no-op on the
pending calls); `abortStep` is a total function, so `abort()` itself never
fails. -/
theorem C5_abort_cancels_all (s : EngineState) :
    queueSizeOf (abortStep s).1 = 0 ∧
    (abortStep s).2 = s.queue.map (fun id => ⟨id, JsError.abortErr⟩) ∧
    (s.queue = [] → (abortStep s).2 = []) := by
  refine ⟨rfl, rfl, fun h => ?_⟩
  simp [abortStep, h]

/-- Witness for C5 at a concrete two-element queue and at the empty
queue. -/
theorem C5_abort_cancels_all_witness :
    (abortStep mkEngine).2 = [] ∧
    queueSizeOf (abortStep { mkEngine with queue := [3, 7] }).1 = 0 ∧
    (abortStep { mkEngine with queue := [3, 7] }).2 =
      [⟨3, JsError.abortErr⟩, ⟨7, JsError.abortErr⟩] := by
  refine ⟨(C5_abort_cancels_all mkEngine).2.2 rfl,
          (C5_abort_cancels_all { mkEngine with queue := [3, 7] }).1, ?_⟩
  rw [(C5_abort_cancels_all { mkEngine with queue := [3, 7] }).2.1]
  rfl

/-- C6: a call made while `isEnabled` is false leaves the engine state
completely unchanged (no queue entry, no windowed-counter or strict-tick
mutation) and immediately produces the callable's outcome as a settled
promise — fulfilled with its value or rejected with its thrown error,
unchanged. -/
theorem C6_disabled_bypass {α : Type} (o : ThrottleOpts) (f : JsOutcome α)
    (now : Int) (s : EngineState) (h : s.isEnabled = false) :
    callStep o f now s = (s, .immediate (asyncRun f)) := by
  unfold callStep
  rw [if_pos h]

/-- Witness for C6 at a concrete disabled engine and callable. -/
theorem C6_disabled_bypass_witness :
    callStep ⟨1, 100, false⟩ (JsOutcome.ret 7) 0
        { mkEngine with isEnabled := false } =
      ({ mkEngine with isEnabled := false },
       .immediate (.fulfilled 7)) :=
  C6_disabled_bypass ⟨1, 100, false⟩ (JsOutcome.ret 7) 0
    { mkEngine with isEnabled := false } rfl

/-- C8: `abort()` resets `strictTicks` to empty and leaves the windowed
state (`currentTick` and `activeCount`) unchanged (the `isEnabled` flag is
also untouched). -/
theorem C8_abort_resets_strict_only (s : EngineState) :
    (abortStep s).1.strictTicks = [] ∧
    (abortStep s).1.win = s.win ∧
    (abortStep s).1.isEnabled = s.isEnabled :=
  ⟨rfl, rfl, rfl⟩

/-- C10: a call made while disabled never throws synchronously — the
`async` wrapper converts a synchronous throw of the wrapped callable into a
rejection of the returned promise, carrying the same error. -/
theorem C10_disabled_sync_throw_rejects {α : Type} (o : ThrottleOpts)
    (e : JsError) (now : Int) (s : EngineState) (h : s.isEnabled = false) :
    (callStep o (JsOutcome.thrown e : JsOutcome α) now s).2 =
      .immediate (.rejected e) := by
  unfold callStep
  rw [if_pos h]
  rfl

/-- Witness for C10 at a concrete disabled engine and thrown error. -/
theorem C10_disabled_sync_throw_rejects_witness :
    (callStep ⟨1, 100, false⟩ (JsOutcome.thrown (JsError.other 5) : JsOutcome Unit) 0
        { mkEngine with isEnabled := false }).2 =
      .immediate (.rejected (JsError.other 5)) :=
  C10_disabled_sync_throw_rejects ⟨1, 100, false⟩ (JsError.other 5) 0
    { mkEngine with isEnabled := false } rfl

/-- `getDelay` never touches the pending queue. -/
theorem getDelay_queue (o : ThrottleOpts) (now : Int) (s : EngineState) :
    (getDelay o now s).2.queue = s.queue := by
  unfold getDelay
  by_cases h : o.strict <;> simp [h]

/-- C7, counterexample: when the wrapped callable throws synchronously
inside the timer callback, `resolve` is never reached and neither is
`queue.delete`, so the registry keeps the entry of a call that has fired
and was never aborted.  With `limit = 1`, `interval = 100`, one enabled
call at `now = 0` whose timer then fires with a throwing callable:
`queueSize()` is 1, while the set of calls issued-but-neither-fired-nor-
aborted is empty. -/
theorem C7_fired_entry_leak_cx :
    (let o : ThrottleOpts := ⟨1, 100, false⟩
     let tr : List (EngineEvent Unit) :=
       [.call 0, .fire 0 (.thrown (.other 0))]
     let p := runGhost o (mkEngine, []) tr
     queueSizeOf p.1 = 1 ∧ p.2.length = 0 ∧
     ¬ queueSizeOf p.1 = p.2.length) := by
  decide

/-- C7, amended: provided no fire event's callable throws synchronously
(returned failures are fine), the registry equals, at every observation
point of every trace, the claim-side list of calls issued while enabled
that have neither fired nor been aborted — each enabled call appends
exactly one fresh entry, each firing removes exactly that call's entry,
`abort()` removes all.  In particular `queueSize()` is that list's
length. -/
theorem C7_queue_matches_pending {α : Type} (o : ThrottleOpts)
    (tr : List (EngineEvent α)) (p : EngineState × List Nat)
    (hstart : p.1.queue = p.2) (hok : firesOk tr = true) :
    (runGhost o p tr).1.queue = (runGhost o p tr).2 := by
  induction tr generalizing p with
  | nil => exact hstart
  | cons ev rest ih =>
      have hok2 : (!fireThrows ev) = true ∧ firesOk rest = true := by
        simpa [firesOk, List.all_cons] using hok
      simp only [runGhost]
      refine ih _ ?_ hok2.2
      cases ev with
      | call now =>
          by_cases he : p.1.isEnabled = true
          · simp [stepEv, claimPendingUpd, callStep, he, getDelay_queue, hstart]
          · have he2 : p.1.isEnabled = false := by
              cases hb : p.1.isEnabled
              · rfl
              · exact absurd hb he
            simp [stepEv, claimPendingUpd, callStep, he2, hstart]
      | fire id f =>
          cases f with
          | ret v => simp [stepEv, claimPendingUpd, fireStep, hstart]
          | thrown e => simp [fireThrows] at hok2
      | abortAll => simp [stepEv, claimPendingUpd, abortStep]
      | setEnabled b => simpa [stepEv, claimPendingUpd] using hstart

/-- Witness for C7 (amended): two calls, one firing, then an abort, on a
concrete windowed engine. -/
theorem C7_queue_matches_pending_witness :
    (runGhost (⟨2, 100, false⟩ : ThrottleOpts) (mkEngine, [])
        ([.call 0, .call 5, .fire 0 (.ret ()), .abortAll] :
          List (EngineEvent Unit))).1.queue =
      (runGhost (⟨2, 100, false⟩ : ThrottleOpts) (mkEngine, [])
        ([.call 0, .call 5, .fire 0 (.ret ()), .abortAll] :
          List (EngineEvent Unit))).2 :=
  C7_queue_matches_pending (⟨2, 100, false⟩ : ThrottleOpts)
    ([.call 0, .call 5, .fire 0 (.ret ()), .abortAll] :
      List (EngineEvent Unit))
    (mkEngine, []) rfl (by decide)

/-- C9, counterexample: two wrapper functions created from the same
`pThrottle(options)` invocation share the closed-over state — a call made
through the first changes the `queueSize()` observed through the second
from 0 to 1. -/
theorem C9_shared_state_cx :
    (let h0 := pThrottleHandle ⟨5, 1000, false⟩
     let p1 := mkWrapper h0
     let p2 := mkWrapper p1.1
     p1.2 ≠ p2.2 ∧
     queueSizeVia p2.2 p2.1 = 0 ∧
     queueSizeVia p2.2 (callVia p1.2 (JsOutcome.ret ()) 0 p2.1).1 = 1) := by
  decide

/-- C9, amended: all throttling state other than the per-wrapper
`isEnabled` flag — the algorithm state and the pending-call registry — is
local to one `pThrottle(options)` invocation rather than to one wrapper:
operations applied to one handle never change another, independently
created handle, while within a single handle every wrapper's `queueSize()`
and `abort()` act on the one shared state, and calls through two wrappers
of the handle coincide whenever the wrappers' own flags agree. -/
theorem C9_state_per_invocation {α : Type} (op : HandleOp α)
    (hA hB : ThrottleHandle) (w w2 : Nat) (f : JsOutcome α) (now : Int) :
    (applyOpSide true op (hA, hB)).2 = hB ∧
    (applyOpSide false op (hA, hB)).1 = hA ∧
    queueSizeVia w hA = queueSizeVia w2 hA ∧
    abortVia w hA = abortVia w2 hA ∧
    (wrapperEnabled hA w = wrapperEnabled hA w2 →
      callVia w f now hA = callVia w2 f now hA) := by
  refine ⟨rfl, rfl, rfl, rfl, fun hw => ?_⟩
  unfold callVia
  rw [hw]

/-- Witness for C9 (amended): on a handle with two fresh wrappers (both
flags `true`), calls through wrapper 0 and wrapper 1 coincide. -/
theorem C9_state_per_invocation_witness :
    callVia 0 (JsOutcome.ret ()) 0
        (mkWrapper (mkWrapper (pThrottleHandle ⟨5, 1000, false⟩)).1).1 =
      callVia 1 (JsOutcome.ret ()) 0
        (mkWrapper (mkWrapper (pThrottleHandle ⟨5, 1000, false⟩)).1).1 :=
  (C9_state_per_invocation (HandleOp.newWrapper : HandleOp Unit)
      (mkWrapper (mkWrapper (pThrottleHandle ⟨5, 1000, false⟩)).1).1
      (pThrottleHandle ⟨1, 1, true⟩) 0 1 (JsOutcome.ret ()) 0).2.2.2.2 rfl

/- ## Strict-mode effective timestamps -/

/-- The sequence of effective timestamps recorded by the strict calculator
over a sequence of call instants, starting from a given `strictTicks`
state: each call records `now + delay`, which is exactly the value the
source pushes onto `strictTicks` in every branch. -/
def strictEffs (limit : Nat) (interval : Int) (ticks : List Int) :
    List Int → List Int
  | [] => []
  | now :: rest =>
      let p := strictDelay limit interval now ticks
      (now + p.1) :: strictEffs limit interval p.2 rest

/-- `Spaced L I r`: every entry of `r` is at least `I` greater than the
entry `L` positions earlier. -/
def Spaced (limit : Nat) (interval : Int) (r : List Int) : Prop :=
  ∀ k, k + limit < r.length → r.getD k 0 + interval ≤ r.getD (k + limit) 0

/-- The number of positions of `r` whose entry lies in the half-open window
`[t, t + I)` of length `I`. -/
def windowCount (interval t : Int) (r : List Int) : Nat :=
  ((Finset.range r.length).filter
    (fun i => t ≤ r.getD i 0 ∧ r.getD i 0 < t + interval)).card

/-- Unfolding of `strictDelay` on a full (hence nonempty) tick list. -/
theorem strictDelay_cons_full (L : Nat) (I now t0 : Int) (rest : List Int)
    (h : ¬ (t0 :: rest).length < L) :
    strictDelay L I now (t0 :: rest) =
      if t0 + I ≤ now then (0, rest ++ [now])
      else (t0 + I - now, rest ++ [t0 + I]) := by
  unfold strictDelay
  rw [if_neg h]

/-- One strict-calculator step preserves the invariant that `strictTicks`
is the suffix of the last `L` recorded timestamps, and extends the recorded
sequence by one entry that is at least `I` above the entry `L` positions
earlier. -/
theorem strictStep_spaced (L : Nat) (I : Int) (hL : 0 < L) (now : Int)
    (r ticks : List Int) (hinv : ticks = r.drop (r.length - L))
    (hsp : Spaced L I r) :
    (strictDelay L I now ticks).2 =
      (r ++ [now + (strictDelay L I now ticks).1]).drop (r.length + 1 - L) ∧
    Spaced L I (r ++ [now + (strictDelay L I now ticks).1]) := by
  have hlen : ticks.length = r.length - (r.length - L) := by
    rw [hinv, List.length_drop]
  by_cases hfull : ticks.length < L
  · -- under-full: the whole of r is remembered and `now` is recorded
    have hrL : r.length < L := by omega
    have hticksr : ticks = r := by
      rw [hinv, Nat.sub_eq_zero_of_le (Nat.le_of_lt hrL), List.drop_zero]
    have heq : strictDelay L I now ticks = (0, ticks ++ [now]) := by
      unfold strictDelay
      rw [if_pos hfull]
    rw [heq]
    dsimp only
    constructor
    · have h0 : r.length + 1 - L = 0 := by omega
      rw [h0, List.drop_zero, hticksr]
      simp
    · intro k hk
      rw [List.length_append] at hk
      simp only [List.length_cons, List.length_nil] at hk
      exact absurd hk (by omega)
  · -- full: the oldest remembered timestamp is shifted out
    have htlenL : ticks.length = L := by omega
    have hrL : L ≤ r.length := by omega
    obtain ⟨t0, rest', hticks⟩ : ∃ t0 rest', ticks = t0 :: rest' := by
      cases ticks with
      | nil => simp at htlenL; omega
      | cons a b => exact ⟨a, b, rfl⟩
    have hm0 : r[r.length - L]? = some t0 := by
      have h1 := List.getElem?_drop r (r.length - L) 0
      rw [← hinv, hticks] at h1
      simpa using h1.symm
    have ht0 : r.getD (r.length - L) 0 = t0 := by
      simp [List.getD_eq_getElem?_getD, hm0]
    have htail : r.drop (r.length - L + 1) = rest' := by
      have h2 := List.tail_drop r (r.length - L)
      rw [← hinv, hticks, List.tail_cons] at h2
      exact h2.symm
    have hfull2 : ¬ (t0 :: rest').length < L := by
      rw [← hticks]
      exact hfull
    have hchar : ∃ e, t0 + I ≤ e ∧
        strictDelay L I now ticks = (e - now, rest' ++ [e]) := by
      rw [hticks, strictDelay_cons_full L I now t0 rest' hfull2]
      by_cases h2 : t0 + I ≤ now
      · refine ⟨now, h2, ?_⟩
        rw [if_pos h2]
        simp
      · exact ⟨t0 + I, le_refl _, by rw [if_neg h2]⟩
    obtain ⟨e, he, heq⟩ := hchar
    rw [heq]
    dsimp only
    have hne : now + (e - now) = e := by ring
    rw [hne]
    constructor
    · have h3 : r.length + 1 - L = (r.length - L) + 1 := by omega
      rw [h3, List.drop_append_of_le_length (by omega), htail]
    · intro k hk
      rw [List.length_append] at hk
      simp only [List.length_cons, List.length_nil] at hk
      by_cases hkr : k + L < r.length
      · rw [List.getD_append _ _ _ _ (by omega), List.getD_append _ _ _ _ hkr]
        exact hsp k hkr
      · have hkeq : k + L = r.length := by omega
        have hkl : k = r.length - L := by omega
        rw [List.getD_append _ _ _ _ (show k < r.length by omega)]
        rw [hkeq, List.getD_append_right _ _ _ _ (le_refl _)]
        simp only [Nat.sub_self, List.getD_cons_zero]
        rw [hkl, ht0]
        exact he

/-- Running the strict calculator over any sequence of call instants keeps
the recorded sequence `I`-spaced at distance `L`, given the suffix
invariant on the starting state. -/
theorem strictEffs_spaced (L : Nat) (I : Int) (hL : 0 < L)
    (nows : List Int) :
    ∀ (r ticks : List Int),
      ticks = r.drop (r.length - L) → Spaced L I r →
      Spaced L I (r ++ strictEffs L I ticks nows) := by
  induction nows with
  | nil =>
      intro r ticks hinv hsp
      simpa [strictEffs] using hsp
  | cons now rest ih =>
      intro r ticks hinv hsp
      have hstep := strictStep_spaced L I hL now r ticks hinv hsp
      have hinv2 : (strictDelay L I now ticks).2 =
          (r ++ [now + (strictDelay L I now ticks).1]).drop
            ((r ++ [now + (strictDelay L I now ticks).1]).length - L) := by
        rw [hstep.1]
        congr 1
        simp
      have hrec := ih (r ++ [now + (strictDelay L I now ticks).1])
        (strictDelay L I now ticks).2 hinv2 hstep.2
      simpa [strictEffs, List.append_assoc] using hrec

/-- Chained spacing: entries `m * L` positions apart differ by at least
`m * I`. -/
theorem spaced_chain (L : Nat) (I : Int) (r : List Int)
    (hsp : Spaced L I r) :
    ∀ (m k : Nat), k + m * L < r.length →
      r.getD k 0 + (m : Int) * I ≤ r.getD (k + m * L) 0 := by
  intro m
  induction m with
  | zero =>
      intro k hk
      simp
  | succ m ih =>
      intro k hk
      have hmono : m * L ≤ (m + 1) * L := Nat.mul_le_mul_right L (Nat.le_succ m)
      have h1 : k + m * L < r.length := by omega
      have h2 := ih k h1
      have h5 : k + (m + 1) * L = (k + m * L) + L := by ring
      have h3 : (k + m * L) + L < r.length := by omega
      have h4 := hsp (k + m * L) h3
      rw [h5]
      push_cast
      have hexp : ((m : Int) + 1) * I = (m : Int) * I + I := by ring
      rw [hexp]
      linarith

/-- Two distinct positions in the same residue class mod `L` cannot both
carry a timestamp inside one half-open window of length `I`. -/
theorem spaced_window_aux (L : Nat) (I : Int) (r : List Int)
    (hI : 0 < I) (hsp : Spaced L I r) (t : Int) (i j : Nat)
    (hij : i < j) (hjr : j < r.length) (hmod : i % L = j % L)
    (hi2 : r.getD i 0 ≥ t) (hj2 : r.getD j 0 < t + I) : False := by
  obtain ⟨m, hm⟩ := (Nat.modEq_iff_dvd' (Nat.le_of_lt hij)).mp hmod
  have hm0 : m ≠ 0 := by
    rintro rfl
    simp at hm
    omega
  have hm1 : 1 ≤ m := Nat.one_le_iff_ne_zero.mpr hm0
  have hjeq : j = i + m * L := by
    have h2 := (Nat.sub_eq_iff_eq_add (Nat.le_of_lt hij)).mp hm
    rw [h2]
    ring
  have hlt : i + m * L < r.length := by
    rw [← hjeq]
    exact hjr
  have hchain := spaced_chain L I r hsp m i hlt
  rw [← hjeq] at hchain
  have hmI : I ≤ (m : Int) * I := by
    have h1 : (1 : Int) ≤ (m : Int) := by exact_mod_cast hm1
    nlinarith
  linarith

/-- Any half-open window of length `I` contains at most `L` entries of an
`I`-spaced sequence (counted with multiplicity, by position). -/
theorem spaced_window_le (L : Nat) (I : Int) (r : List Int) (hL : 0 < L)
    (hI : 0 < I) (hsp : Spaced L I r) (t : Int) :
    windowCount I t r ≤ L := by
  classical
  unfold windowCount
  have hinj : Set.InjOn (fun i : Nat => i % L)
      ((Finset.range r.length).filter
        (fun i => t ≤ r.getD i 0 ∧ r.getD i 0 < t + I) : Finset Nat) := by
    intro i hi j hj hij
    simp only [Finset.coe_filter, Set.mem_setOf_eq, Finset.mem_range] at hi hj
    rcases lt_trichotomy i j with h | h | h
    · exact (spaced_window_aux L I r hI hsp t i j h hj.1 hij
        hi.2.1 hj.2.2).elim
    · exact h
    · exact (spaced_window_aux L I r hI hsp t j i h hi.1 hij.symm
        hj.2.1 hi.2.2).elim
  have hcard := Finset.card_le_card_of_injOn (fun i : Nat => i % L)
      (fun i _ => Finset.mem_range.mpr (Nat.mod_lt i hL)) hinj
  simpa using hcard

/-- C1: in strict mode with `limit = L > 0` and `interval = I > 0`, for any
sequence of call instants from a fresh strict state, the recorded effective
timestamps satisfy both forms of the claim: any half-open window of length
`I` contains at most `L` of them, and every recorded timestamp is at least
`I` greater than the timestamp recorded `L` admissions earlier. -/
theorem C1_strict_sliding_window (L : Nat) (I : Int) (nows : List Int)
    (t : Int) (hL : 0 < L) (hI : 0 < I) :
    windowCount I t (strictEffs L I [] nows) ≤ L ∧
    Spaced L I (strictEffs L I [] nows) := by
  have hsp : Spaced L I (strictEffs L I [] nows) := by
    have h := strictEffs_spaced L I hL nows [] []
      (by simp) (fun k hk => absurd hk (by simp))
    simpa using h
  exact ⟨spaced_window_le L I _ hL hI hsp t, hsp⟩

/-- Witness for C1 at `L = 2`, `I = 10`, four calls at instant 0: the
recorded sequence is `[0, 0, 10, 10]`; the window `[0, 10)` holds two
entries and entry 2 is 10 above entry 0. -/
theorem C1_strict_sliding_window_witness :
    windowCount 10 0 (strictEffs 2 10 [] [0, 0, 0, 0]) ≤ 2 ∧
    (strictEffs 2 10 [] [0, 0, 0, 0]).getD 0 0 + 10 ≤
      (strictEffs 2 10 [] [0, 0, 0, 0]).getD 2 0 :=
  ⟨(C1_strict_sliding_window 2 10 [0, 0, 0, 0] 0 (by decide) (by decide)).1,
   (C1_strict_sliding_window 2 10 [0, 0, 0, 0] 0 (by decide) (by decide)).2
     0 (by decide)⟩
